import Mathlib

/-!
Verification of the responsive masonry layout engine of roostergrin/image-picker
(src/src/utils/contentKeywordExtractor.ts, second document: `useMasonryColumns`,
`getResponsiveColumns`, `getResponsiveGap`).

JavaScript numbers are modelled as rationals (ℚ): every arithmetic operation the
engine performs (subtraction, multiplication, division by positive quantities)
is exact on the inputs the claims consider.  A `width: number | null` field is
`Option ℚ`; the JS truthiness test `!image.width` (true for `null` and `0`) and
the comparison `image.width <= 0` (where `null` coerces to `0`) are modelled via
`numOrNull`, which applies the JS null-to-0 coercion.
-/

/-- `interface ImageWithDimensions { id: number; width: number | null; height: number | null }`. -/
structure ImageWithDimensions where
  id : Int
  width : Option ℚ
  height : Option ℚ
deriving DecidableEq, Repr

/-- An entry of a column: `{...image, calculatedHeight}`. -/
structure PlacedImage where
  image : ImageWithDimensions
  calculatedHeight : ℚ
deriving DecidableEq, Repr

/-- `interface MasonryColumn { images: (T & {calculatedHeight: number})[]; columnIndex: number }`. -/
structure MasonryColumn where
  images : List PlacedImage
  columnIndex : Nat
deriving DecidableEq, Repr

/-- `interface UseMasonryColumnsOptions { containerWidth: number; gap: number }`. -/
structure UseMasonryColumnsOptions where
  containerWidth : ℚ
  gap : ℚ
deriving DecidableEq, Repr

/-- The return type of `useMasonryColumns`. -/
structure MasonryResult where
  columns : List MasonryColumn
  columnCount : Nat
  columnWidth : ℚ
deriving DecidableEq, Repr

/-- JS coercion of `number | null` to a number in comparisons: `null` acts as `0`. -/
def numOrNull (o : Option ℚ) : ℚ := o.getD 0

/-- The skip test of the packing loop,
`!image.width || !image.height || image.width <= 0 || image.height <= 0`,
holds exactly when the width or the height is `null`, zero or negative; so the
image is kept exactly when both coerced dimensions are positive. -/
def validDims (image : ImageWithDimensions) : Bool :=
  decide (0 < numOrNull image.width) && decide (0 < numOrNull image.height)

/-- The inner helper `getColumnCount` of `useMasonryColumns` (identical to the
top-level `getResponsiveColumns`). -/
def getColumnCount (width : ℚ) : Nat :=
  if width < 640 then 2
  else if width < 1024 then 3
  else if width < 1440 then 4
  else 5

/-- Top-level helper `getResponsiveColumns` (same body as `getColumnCount`). -/
def getResponsiveColumns (containerWidth : ℚ) : Nat :=
  if containerWidth < 640 then 2
  else if containerWidth < 1024 then 3
  else if containerWidth < 1440 then 4
  else 5

/-- Top-level helper `getResponsiveGap`. -/
def getResponsiveGap (containerWidth : ℚ) : ℚ :=
  if containerWidth < 640 then 8
  else if containerWidth < 1024 then 12
  else 16

/-- `Math.min(...columnHeights)` on a nonempty list of heights.  The source
never evaluates it on an empty list (the early-return guard ensures at least
two columns); the `[]` case is an arbitrary total-function default. -/
def listMin : List ℚ → ℚ
  | [] => 0
  | [a] => a
  | a :: b :: t => min a (listMin (b :: t))

/-- `columnHeights.indexOf(x)`: index of the first occurrence of `x`.  For an
absent element JS yields `-1`; this model yields the length, a case the engine
never reaches because it only looks up `Math.min(...columnHeights)`, which is a
member. -/
def indexOfQ (x : ℚ) : List ℚ → Nat
  | [] => 0
  | a :: t => if a = x then 0 else indexOfQ x t + 1

/-- `columnHeights.indexOf(Math.min(...columnHeights))`. -/
def shortestColumnOf (columnHeights : List ℚ) : Nat :=
  indexOfQ (listMin columnHeights) columnHeights

/-- In-place update of one list entry (`columns[i].images.push(...)`,
`columnHeights[i] += ...`): apply `f` at index `i`, leave the rest unchanged. -/
def listModify (f : α → α) : Nat → List α → List α
  | _, [] => []
  | 0, a :: t => f a :: t
  | n + 1, a :: t => a :: listModify f n t

/-- The entry pushed by the loop body:
`aspectRatio = width / height`, `calculatedHeight = columnWidth / aspectRatio`,
pushed as `{...image, calculatedHeight}`. -/
def placeImage (columnWidth : ℚ) (image : ImageWithDimensions) : PlacedImage :=
  let aspectRatio := numOrNull image.width / numOrNull image.height
  { image := image, calculatedHeight := columnWidth / aspectRatio }

/-- One iteration of the `images.forEach` packing loop: skip an image whose
dimensions are not both positive, otherwise compute its `calculatedHeight`,
push the image onto the column with the least running height (first index on
ties) and add `calculatedHeight + gap` to that running height. -/
def packStep (columnWidth gap : ℚ) (st : List MasonryColumn × List ℚ)
    (image : ImageWithDimensions) : List MasonryColumn × List ℚ :=
  if validDims image then
    let placed := placeImage columnWidth image
    let shortestColumnIndex := shortestColumnOf st.2
    (listModify (fun col => { col with images := col.images ++ [placed] })
        shortestColumnIndex st.1,
     listModify (fun h => h + (placed.calculatedHeight + gap)) shortestColumnIndex st.2)
  else st

/-- The initial columns `[{images: [], columnIndex: i} | i < columnCount]`. -/
def initColumns (columnCount : Nat) : List MasonryColumn :=
  (List.range columnCount).map (fun i => { images := [], columnIndex := i })

/-- `useMasonryColumns(images, {containerWidth, gap})`, the layout orchestrator:
early return on empty input or non-positive width, otherwise resolve the column
count, derive the shared column width and run the packing loop. -/
def useMasonryColumns (images : List ImageWithDimensions)
    (options : UseMasonryColumnsOptions) : MasonryResult :=
  if images.length = 0 ∨ options.containerWidth ≤ 0 then
    { columns := [], columnCount := 0, columnWidth := 0 }
  else
    let columnCount := getColumnCount options.containerWidth
    let totalGaps := ((columnCount : ℚ) - 1) * options.gap
    let columnWidth := (options.containerWidth - totalGaps) / (columnCount : ℚ)
    let final := images.foldl (packStep columnWidth options.gap)
      (initColumns columnCount, List.replicate columnCount 0)
    { columns := final.1, columnCount := columnCount, columnWidth := columnWidth }

/-- The shared column width computed in the non-degenerate branch:
`(containerWidth - (columnCount - 1) * gap) / columnCount`. -/
def columnWidthOf (options : UseMasonryColumnsOptions) : ℚ :=
  (options.containerWidth - ((getColumnCount options.containerWidth : ℚ) - 1) * options.gap) /
    (getColumnCount options.containerWidth : ℚ)

/-- The packing state (columns, running heights) of a non-degenerate run of
`useMasonryColumns` after the loop has processed the images `l`. -/
def packState (options : UseMasonryColumnsOptions) (l : List ImageWithDimensions) :
    List MasonryColumn × List ℚ :=
  l.foldl (packStep (columnWidthOf options) options.gap)
    (initColumns (getColumnCount options.containerWidth),
     List.replicate (getColumnCount options.containerWidth) 0)

/-- All entries placed across the columns, in column order. -/
def allPlaced (cols : List MasonryColumn) : List PlacedImage :=
  (cols.map MasonryColumn.images).flatten

/-! ### Basic lemmas about the auxiliary functions -/

theorem listMin_mem : ∀ (l : List ℚ), l ≠ [] → listMin l ∈ l
  | [], h => absurd rfl h
  | [a], _ => by simp [listMin]
  | a :: b :: t, _ => by
      have ih := listMin_mem (b :: t) (List.cons_ne_nil b t)
      show min a (listMin (b :: t)) ∈ a :: b :: t
      rcases min_cases a (listMin (b :: t)) with ⟨h, _⟩ | ⟨h, _⟩
      · rw [h]; exact List.mem_cons_self a _
      · rw [h]; exact List.mem_cons_of_mem a ih

theorem listMin_le : ∀ (l : List ℚ) (x : ℚ), x ∈ l → listMin l ≤ x
  | [], x, hx => absurd hx (List.not_mem_nil x)
  | [a], x, hx => by
      have hxa : x = a := by simpa using hx
      simp [listMin, hxa]
  | a :: b :: t, x, hx => by
      show min a (listMin (b :: t)) ≤ x
      rcases List.mem_cons.mp hx with rfl | hx
      · exact min_le_left _ _
      · exact le_trans (min_le_right _ _) (listMin_le (b :: t) x hx)

theorem indexOfQ_get?_eq : ∀ (l : List ℚ) (x : ℚ), x ∈ l → l.get? (indexOfQ x l) = some x
  | [], x, hx => absurd hx (List.not_mem_nil x)
  | a :: t, x, hx => by
      by_cases h : a = x
      · simp [indexOfQ, h]
      · have hxt : x ∈ t := by
          rcases List.mem_cons.mp hx with rfl | hxt
          · exact absurd rfl h
          · exact hxt
        simpa [indexOfQ, h] using indexOfQ_get?_eq t x hxt

theorem indexOfQ_le_of_get? : ∀ (l : List ℚ) (x : ℚ) (j : Nat),
    l.get? j = some x → indexOfQ x l ≤ j
  | [], x, j, hj => by simp at hj
  | a :: t, x, 0, hj => by
      have ha : a = x := by simpa using hj
      simp [indexOfQ, ha]
  | a :: t, x, j + 1, hj => by
      by_cases h : a = x
      · simp [indexOfQ, h]
      · have ih := indexOfQ_le_of_get? t x j (by simpa using hj)
        simp only [indexOfQ, h, if_false]
        omega

theorem indexOfQ_lt_length (l : List ℚ) (x : ℚ) (hx : x ∈ l) : indexOfQ x l < l.length := by
  rcases List.get?_eq_some.mp (indexOfQ_get?_eq l x hx) with ⟨h, _⟩
  exact h

theorem listModify_length (f : α → α) : ∀ (n : Nat) (l : List α),
    (listModify f n l).length = l.length
  | 0, [] => rfl
  | _ + 1, [] => rfl
  | 0, _ :: _ => rfl
  | n + 1, a :: t => by simp [listModify, listModify_length f n t]

theorem allPlaced_cons (c : MasonryColumn) (t : List MasonryColumn) :
    allPlaced (c :: t) = c.images ++ allPlaced t := rfl

theorem allPlaced_listModify_perm (x : PlacedImage) :
    ∀ (i : Nat) (cols : List MasonryColumn), i < cols.length →
      (allPlaced (listModify (fun col => { col with images := col.images ++ [x] }) i cols)).Perm
        (x :: allPlaced cols)
  | _, [], h => absurd h (by simp)
  | 0, c :: t, _ => by
      show ((c.images ++ [x]) ++ allPlaced t).Perm (x :: (c.images ++ allPlaced t))
      rw [List.append_assoc]
      exact List.perm_middle
  | i + 1, c :: t, h => by
      have ih := allPlaced_listModify_perm x i t (by simpa using h)
      show (c.images ++
          allPlaced (listModify (fun col => { col with images := col.images ++ [x] }) i t)).Perm
        (x :: (c.images ++ allPlaced t))
      exact (List.Perm.append_left c.images ih).trans List.perm_middle

theorem two_le_getColumnCount (w : ℚ) : 2 ≤ getColumnCount w := by
  unfold getColumnCount
  split_ifs <;> norm_num

/-! ### Invariants of one packing step and of the whole loop -/

theorem packStep_fst_length (cw gap : ℚ) (st : List MasonryColumn × List ℚ)
    (image : ImageWithDimensions) : (packStep cw gap st image).1.length = st.1.length := by
  unfold packStep
  split_ifs <;> simp [listModify_length]

theorem packStep_snd_length (cw gap : ℚ) (st : List MasonryColumn × List ℚ)
    (image : ImageWithDimensions) : (packStep cw gap st image).2.length = st.2.length := by
  unfold packStep
  split_ifs <;> simp [listModify_length]

theorem packStep_allPlaced_perm (cw gap : ℚ) (st : List MasonryColumn × List ℚ)
    (image : ImageWithDimensions) (hlen : st.1.length = st.2.length) (hne : st.2 ≠ []) :
    (allPlaced (packStep cw gap st image).1).Perm
      ((if validDims image then [placeImage cw image] else []) ++ allPlaced st.1) := by
  by_cases hv : validDims image
  · have hlt : shortestColumnOf st.2 < st.1.length := by
      rw [hlen]
      exact indexOfQ_lt_length st.2 (listMin st.2) (listMin_mem st.2 hne)
    have hstep := allPlaced_listModify_perm (placeImage cw image) (shortestColumnOf st.2) st.1 hlt
    simpa [packStep, hv] using hstep
  · simp [packStep, hv]

theorem foldl_packStep_fst_length (cw gap : ℚ) :
    ∀ (l : List ImageWithDimensions) (st : List MasonryColumn × List ℚ),
      (l.foldl (packStep cw gap) st).1.length = st.1.length
  | [], _ => rfl
  | image :: t, st => by
      rw [List.foldl_cons, foldl_packStep_fst_length cw gap t (packStep cw gap st image),
        packStep_fst_length]

theorem foldl_packStep_snd_length (cw gap : ℚ) :
    ∀ (l : List ImageWithDimensions) (st : List MasonryColumn × List ℚ),
      (l.foldl (packStep cw gap) st).2.length = st.2.length
  | [], _ => rfl
  | image :: t, st => by
      rw [List.foldl_cons, foldl_packStep_snd_length cw gap t (packStep cw gap st image),
        packStep_snd_length]

theorem foldl_packStep_perm (cw gap : ℚ) :
    ∀ (l : List ImageWithDimensions) (st : List MasonryColumn × List ℚ),
      st.1.length = st.2.length → st.2 ≠ [] →
      (allPlaced (l.foldl (packStep cw gap) st).1).Perm
        ((l.filter validDims).map (placeImage cw) ++ allPlaced st.1)
  | [], _, _, _ => by simp
  | image :: t, st, hlen, hne => by
      rw [List.foldl_cons]
      have hlen2 : (packStep cw gap st image).1.length = (packStep cw gap st image).2.length := by
        rw [packStep_fst_length, packStep_snd_length, hlen]
      have hne2 : (packStep cw gap st image).2 ≠ [] := by
        intro h0
        apply hne
        have hl := packStep_snd_length cw gap st image
        rw [h0] at hl
        exact List.length_eq_zero.mp hl.symm
      have ih := foldl_packStep_perm cw gap t (packStep cw gap st image) hlen2 hne2
      have hstep := packStep_allPlaced_perm cw gap st image hlen hne
      by_cases hv : validDims image
      · simp only [hv, if_true] at hstep
        have hmid := (ih.trans (List.Perm.append_left _ hstep))
        rw [List.filter_cons_of_pos hv]
        refine hmid.trans ?_
        rw [List.map_cons, ← List.append_assoc]
        exact List.Perm.append_right _ List.perm_append_comm
      · simp only [hv, if_false, List.nil_append] at hstep
        rw [List.filter_cons_of_neg (by simpa using hv)]
        exact ih.trans (List.Perm.append_left _ hstep)

/-! ### Unfolding the non-degenerate run -/

theorem useMasonryColumns_empty_of (images : List ImageWithDimensions)
    (options : UseMasonryColumnsOptions) (h : images.length = 0 ∨ options.containerWidth ≤ 0) :
    useMasonryColumns images options = { columns := [], columnCount := 0, columnWidth := 0 } := by
  unfold useMasonryColumns
  rw [if_pos h]

theorem useMasonryColumns_run (images : List ImageWithDimensions)
    (options : UseMasonryColumnsOptions) (hne : images ≠ []) (hcw : 0 < options.containerWidth) :
    useMasonryColumns images options =
      { columns := (packState options images).1,
        columnCount := getColumnCount options.containerWidth,
        columnWidth := columnWidthOf options } := by
  have hcond : ¬(images.length = 0 ∨ options.containerWidth ≤ 0) := by
    push_neg
    exact ⟨by simpa [List.length_eq_zero] using hne, hcw⟩
  unfold useMasonryColumns
  rw [if_neg hcond]
  rfl

theorem allPlaced_initColumns (n : Nat) : allPlaced (initColumns n) = [] := by
  simp [allPlaced, initColumns, List.map_map, List.flatten_eq_nil_iff]

theorem initColumns_length (n : Nat) : (initColumns n).length = n := by
  simp [initColumns]

theorem packState_fst_length (options : UseMasonryColumnsOptions)
    (l : List ImageWithDimensions) :
    (packState options l).1.length = getColumnCount options.containerWidth := by
  unfold packState
  rw [foldl_packStep_fst_length, initColumns_length]

theorem packState_snd_length (options : UseMasonryColumnsOptions)
    (l : List ImageWithDimensions) :
    (packState options l).2.length = getColumnCount options.containerWidth := by
  unfold packState
  rw [foldl_packStep_snd_length, List.length_replicate]

theorem packState_snd_ne_nil (options : UseMasonryColumnsOptions)
    (l : List ImageWithDimensions) : (packState options l).2 ≠ [] := by
  intro h0
  have hl := packState_snd_length options l
  rw [h0] at hl
  have := two_le_getColumnCount options.containerWidth
  simp at hl
  omega

theorem useMasonryColumns_perm (images : List ImageWithDimensions)
    (options : UseMasonryColumnsOptions) (hne : images ≠ []) (hcw : 0 < options.containerWidth) :
    (allPlaced (useMasonryColumns images options).columns).Perm
      ((images.filter validDims).map (placeImage (columnWidthOf options))) := by
  rw [useMasonryColumns_run images options hne hcw]
  have hlen : (initColumns (getColumnCount options.containerWidth)).length =
      (List.replicate (getColumnCount options.containerWidth) (0 : ℚ)).length := by
    simp [initColumns_length]
  have hne2 : (List.replicate (getColumnCount options.containerWidth) (0 : ℚ)) ≠ [] := by
    have := two_le_getColumnCount options.containerWidth
    intro h0
    have : (List.replicate (getColumnCount options.containerWidth) (0 : ℚ)).length = 0 := by
      rw [h0]; rfl
    simp at this
    omega
  have hperm := foldl_packStep_perm (columnWidthOf options) options.gap images
    (initColumns (getColumnCount options.containerWidth),
     List.replicate (getColumnCount options.containerWidth) 0) hlen hne2
  simpa [packState, allPlaced_initColumns] using hperm

/-! ### Counting lemmas used for conservation and uniqueness of placement -/

theorem any_eq_false_of_countP_zero {q : PlacedImage → Bool} {l : List PlacedImage}
    (h : l.countP q = 0) : l.any q = false := by
  rw [List.any_eq_false]
  exact fun x hx => List.countP_eq_zero.mp h x hx

theorem any_eq_true_of_countP_ne_zero {q : PlacedImage → Bool} {l : List PlacedImage}
    (h : l.countP q ≠ 0) : l.any q = true := by
  rw [List.any_eq_true]
  by_contra hno
  push_neg at hno
  exact h (List.countP_eq_zero.mpr hno)

theorem countP_columns_zero (q : PlacedImage → Bool) :
    ∀ (cols : List MasonryColumn), (allPlaced cols).countP q = 0 →
      cols.countP (fun c => c.images.any q) = 0
  | [], _ => rfl
  | c :: t, h => by
      rw [allPlaced_cons, List.countP_append] at h
      rw [List.countP_cons, countP_columns_zero q t (by omega)]
      simp [any_eq_false_of_countP_zero (show c.images.countP q = 0 by omega)]

theorem countP_columns_one (q : PlacedImage → Bool) :
    ∀ (cols : List MasonryColumn), (allPlaced cols).countP q = 1 →
      cols.countP (fun c => c.images.any q) = 1
  | [], h => by simp [allPlaced] at h
  | c :: t, h => by
      rw [allPlaced_cons, List.countP_append] at h
      rw [List.countP_cons]
      by_cases hc : c.images.countP q = 0
      · rw [countP_columns_one q t (by omega)]
        simp [any_eq_false_of_countP_zero hc]
      · rw [countP_columns_zero q t (by omega)]
        simp [any_eq_true_of_countP_ne_zero hc]

theorem countP_id_filter_of_valid {images : List ImageWithDimensions}
    (hids : (images.map ImageWithDimensions.id).Nodup) {img : ImageWithDimensions}
    (himg : img ∈ images) (hv : validDims img = true) :
    (images.filter validDims).countP (fun i => decide (i.id = img.id)) = 1 := by
  have inj := List.inj_on_of_nodup_map hids
  rw [List.countP_filter]
  have hcong : ∀ a ∈ images,
      ((decide (a.id = img.id) && validDims a) = true ↔ decide (a.id = img.id) = true) := by
    intro a ha
    constructor
    · intro h
      rw [Bool.and_eq_true] at h
      exact h.1
    · intro h
      have heq : a = img := inj ha himg (by simpa using h)
      rw [Bool.and_eq_true]
      exact ⟨h, heq ▸ hv⟩
  rw [List.countP_congr hcong]
  have hcnt : (images.map ImageWithDimensions.id).count img.id = 1 :=
    List.count_eq_one_of_mem hids (List.mem_map_of_mem _ himg)
  rw [List.count_eq_countP] at hcnt
  rw [List.countP_map] at hcnt
  have : ∀ a ∈ images, ((fun x => x == img.id) ∘ ImageWithDimensions.id) a = true ↔
      decide (a.id = img.id) = true := by
    intro a _
    simp
  rw [List.countP_congr this] at hcnt
  exact hcnt

theorem countP_id_filter_of_invalid {images : List ImageWithDimensions}
    (hids : (images.map ImageWithDimensions.id).Nodup) {img : ImageWithDimensions}
    (himg : img ∈ images) (hv : validDims img = false) :
    (images.filter validDims).countP (fun i => decide (i.id = img.id)) = 0 := by
  have inj := List.inj_on_of_nodup_map hids
  rw [List.countP_filter]
  apply List.countP_eq_zero.mpr
  intro a ha hcontra
  rw [Bool.and_eq_true] at hcontra
  rcases hcontra with ⟨hid, hval⟩
  have heq : a = img := inj ha himg (by simpa using hid)
  rw [heq, hv] at hval
  exact Bool.false_ne_true hval

theorem countP_not_add {α : Type} (p : α → Bool) :
    ∀ (l : List α), l.countP p + l.countP (fun a => !p a) = l.length
  | [] => rfl
  | a :: t => by
      rw [List.countP_cons, List.countP_cons, List.length_cons]
      have ih := countP_not_add p t
      cases hpa : p a <;> simp [hpa] <;> omega

/-! ### Concrete items of the worked example -/

def c1img1 : ImageWithDimensions := { id := 1, width := some 400, height := some 300 }

def c1img2 : ImageWithDimensions := { id := 2, width := some 300, height := some 500 }

def c1img3 : ImageWithDimensions := { id := 3, width := some 600, height := some 400 }

def c1img4 : ImageWithDimensions := { id := 4, width := some 400, height := some 600 }

def c1img5 : ImageWithDimensions := { id := 5, width := some 500, height := some 300 }

/-! ### The claims -/

/-- Claim C1: on the four-item worked example at `containerWidth = 1200`,
`gap = 16`, the engine yields 4 columns of width 288, places items 1-4 into
columns 0,1,2,3 with calculated heights 216, 480, 192, 432, and appending item
5 `{id:5,w:500,h:300}` routes it to column 2. -/
theorem masonry_worked_example :
    useMasonryColumns [c1img1, c1img2, c1img3, c1img4] { containerWidth := 1200, gap := 16 } =
      { columns := [{ images := [{ image := c1img1, calculatedHeight := 216 }], columnIndex := 0 },
                    { images := [{ image := c1img2, calculatedHeight := 480 }], columnIndex := 1 },
                    { images := [{ image := c1img3, calculatedHeight := 192 }], columnIndex := 2 },
                    { images := [{ image := c1img4, calculatedHeight := 432 }], columnIndex := 3 }],
        columnCount := 4, columnWidth := 288 } ∧
    useMasonryColumns [c1img1, c1img2, c1img3, c1img4, c1img5] { containerWidth := 1200, gap := 16 } =
      { columns := [{ images := [{ image := c1img1, calculatedHeight := 216 }], columnIndex := 0 },
                    { images := [{ image := c1img2, calculatedHeight := 480 }], columnIndex := 1 },
                    { images := [{ image := c1img3, calculatedHeight := 192 },
                                 { image := c1img5, calculatedHeight := 864 / 5 }], columnIndex := 2 },
                    { images := [{ image := c1img4, calculatedHeight := 432 }], columnIndex := 3 }],
        columnCount := 4, columnWidth := 288 } := by
  constructor <;>
    norm_num [useMasonryColumns, getColumnCount, initColumns, packStep, placeImage, validDims,
      numOrNull, shortestColumnOf, listMin, indexOfQ, listModify, List.range_succ,
      c1img1, c1img2, c1img3, c1img4, c1img5]

/-- Claim C5: with a non-positive container width or an empty item list, the
engine returns exactly `{columns: [], columnCount: 0, columnWidth: 0}`. -/
theorem masonry_degenerate_guard (images : List ImageWithDimensions)
    (options : UseMasonryColumnsOptions)
    (h : options.containerWidth ≤ 0 ∨ images = []) :
    useMasonryColumns images options = { columns := [], columnCount := 0, columnWidth := 0 } := by
  apply useMasonryColumns_empty_of
  rcases h with h | h
  · exact Or.inr h
  · exact Or.inl (by rw [h]; rfl)

/-- Witness for C5 at the concrete input `images = []`, `containerWidth = 800`. -/
theorem masonry_degenerate_guard_witness :
    useMasonryColumns [] { containerWidth := 800, gap := 16 } =
      { columns := [], columnCount := 0, columnWidth := 0 } :=
  masonry_degenerate_guard [] { containerWidth := 800, gap := 16 } (Or.inr rfl)

/-- Claim C6: the column-count resolver (both the inner `getColumnCount` and
the identical top-level `getResponsiveColumns`) and the gap resolver take
exactly the breakpoint-table boundary values. -/
theorem resolver_boundary_values :
    getColumnCount 639 = 2 ∧ getColumnCount 640 = 3 ∧ getColumnCount 1023 = 3 ∧
    getColumnCount 1024 = 4 ∧ getColumnCount 1439 = 4 ∧ getColumnCount 1440 = 5 ∧
    getResponsiveColumns 639 = 2 ∧ getResponsiveColumns 640 = 3 ∧
    getResponsiveColumns 1023 = 3 ∧ getResponsiveColumns 1024 = 4 ∧
    getResponsiveColumns 1439 = 4 ∧ getResponsiveColumns 1440 = 5 ∧
    getResponsiveGap 639 = 8 ∧ getResponsiveGap 640 = 12 ∧
    getResponsiveGap 1023 = 12 ∧ getResponsiveGap 1024 = 16 := by
  decide

/-- Claim C7: the column-count resolver is monotonic non-decreasing in the
container width (both copies of it). -/
theorem resolveColumnCount_monotone (w1 w2 : ℚ) (h : w1 < w2) :
    getColumnCount w1 ≤ getColumnCount w2 ∧
    getResponsiveColumns w1 ≤ getResponsiveColumns w2 := by
  constructor
  · unfold getColumnCount
    split_ifs <;> first | (exfalso; linarith) | norm_num
  · unfold getResponsiveColumns
    split_ifs <;> first | (exfalso; linarith) | norm_num

/-- Witness for C7 at `w1 = 100 < w2 = 700`. -/
theorem resolveColumnCount_monotone_witness :
    getColumnCount 100 ≤ getColumnCount 700 ∧
    getResponsiveColumns 100 ≤ getResponsiveColumns 700 :=
  resolveColumnCount_monotone 100 700 (by norm_num)

/-- Claim C9: the engine is deterministic — two calls on equal inputs (same
item list by value, same options) return equal results; in this embedding the
output is a function of the arguments alone, so equality of inputs transports
to equality of outputs. -/
theorem masonry_deterministic (images1 images2 : List ImageWithDimensions)
    (options1 options2 : UseMasonryColumnsOptions)
    (h1 : images1 = images2) (h2 : options1 = options2) :
    useMasonryColumns images1 options1 = useMasonryColumns images2 options2 := by
  rw [h1, h2]

/-- Witness for C9 at a concrete repeated input. -/
theorem masonry_deterministic_witness :
    useMasonryColumns [c1img1] { containerWidth := 1200, gap := 16 } =
      useMasonryColumns [c1img1] { containerWidth := 1200, gap := 16 } :=
  masonry_deterministic [c1img1] [c1img1]
    { containerWidth := 1200, gap := 16 } { containerWidth := 1200, gap := 16 } rfl rfl

/-- An item with a missing width, used as a dropped item in witnesses. -/
def c2bad : ImageWithDimensions := { id := 6, width := none, height := some 100 }

/-- Claim C2: in a non-degenerate run on items with unique ids (the data model
declares ids unique), every item with positive width and height appears by id
in exactly one column, every item with a null/zero/negative dimension appears
in none, and placed items plus dropped items account exactly for the input. -/
theorem masonry_conservation (images : List ImageWithDimensions)
    (options : UseMasonryColumnsOptions) (hne : images ≠ [])
    (hcw : 0 < options.containerWidth)
    (hids : (images.map ImageWithDimensions.id).Nodup) :
    (∀ img ∈ images, validDims img = true →
      (useMasonryColumns images options).columns.countP
        (fun c => c.images.any (fun p => decide (p.image.id = img.id))) = 1) ∧
    (∀ img ∈ images, validDims img = false →
      (useMasonryColumns images options).columns.countP
        (fun c => c.images.any (fun p => decide (p.image.id = img.id))) = 0) ∧
    (allPlaced (useMasonryColumns images options).columns).length +
      images.countP (fun img => !validDims img) = images.length := by
  have hperm := useMasonryColumns_perm images options hne hcw
  refine ⟨?_, ?_, ?_⟩
  · intro img himg hv
    apply countP_columns_one
    rw [hperm.countP_eq (fun p => decide (p.image.id = img.id)), List.countP_map]
    exact countP_id_filter_of_valid hids himg hv
  · intro img himg hv
    apply countP_columns_zero
    rw [hperm.countP_eq (fun p => decide (p.image.id = img.id)), List.countP_map]
    exact countP_id_filter_of_invalid hids himg hv
  · have hlen := hperm.length_eq
    rw [List.length_map] at hlen
    rw [hlen, ← List.countP_eq_length_filter]
    have hpart := countP_not_add validDims images
    omega

/-- Witness for C2 on `[c1img1, c2bad]` (one valid, one dropped item) at
`containerWidth = 1200`, `gap = 16`. -/
theorem masonry_conservation_witness :
    (∀ img ∈ [c1img1, c2bad], validDims img = true →
      (useMasonryColumns [c1img1, c2bad] { containerWidth := 1200, gap := 16 }).columns.countP
        (fun c => c.images.any (fun p => decide (p.image.id = img.id))) = 1) ∧
    (∀ img ∈ [c1img1, c2bad], validDims img = false →
      (useMasonryColumns [c1img1, c2bad] { containerWidth := 1200, gap := 16 }).columns.countP
        (fun c => c.images.any (fun p => decide (p.image.id = img.id))) = 0) ∧
    (allPlaced
        (useMasonryColumns [c1img1, c2bad] { containerWidth := 1200, gap := 16 }).columns).length +
      [c1img1, c2bad].countP (fun img => !validDims img) = [c1img1, c2bad].length :=
  masonry_conservation [c1img1, c2bad] { containerWidth := 1200, gap := 16 }
    (by simp) (by norm_num)
    (by simp [c1img1, c2bad])

theorem get_shortestColumnOf (hs : List ℚ) (hne : hs ≠ []) :
    ∃ hlt : shortestColumnOf hs < hs.length,
      hs.get ⟨shortestColumnOf hs, hlt⟩ = listMin hs := by
  have hmem := listMin_mem hs hne
  have hget := indexOfQ_get?_eq hs (listMin hs) hmem
  have hlt : shortestColumnOf hs < hs.length := indexOfQ_lt_length hs (listMin hs) hmem
  refine ⟨hlt, ?_⟩
  have hget2 : hs.get? (shortestColumnOf hs) = some (listMin hs) := hget
  rw [List.get?_eq_get hlt] at hget2
  exact Option.some.inj hget2

theorem packState_append_singleton (options : UseMasonryColumnsOptions)
    (l1 : List ImageWithDimensions) (image : ImageWithDimensions) :
    packState options (l1 ++ [image]) =
      packStep (columnWidthOf options) options.gap (packState options l1) image := by
  rw [packState, packState, List.foldl_append]
  rfl

/-- Claim C3: at the moment each valid item is assigned (after any processed
list `l1` of a run), the chosen column index points at a running height that is
less than or equal to every column's running height, strictly earlier indices
hold strictly greater heights (lowest index among ties), and the item is
appended to exactly that column. -/
theorem masonry_shortest_selection (options : UseMasonryColumnsOptions)
    (l1 : List ImageWithDimensions) (image : ImageWithDimensions)
    (hv : validDims image = true) :
    ∃ hlt : shortestColumnOf (packState options l1).2 < (packState options l1).2.length,
      (∀ j (hj : j < (packState options l1).2.length),
        (packState options l1).2.get ⟨shortestColumnOf (packState options l1).2, hlt⟩ ≤
          (packState options l1).2.get ⟨j, hj⟩) ∧
      (∀ j (hj : j < (packState options l1).2.length),
        (packState options l1).2.get ⟨j, hj⟩ =
          (packState options l1).2.get ⟨shortestColumnOf (packState options l1).2, hlt⟩ →
        shortestColumnOf (packState options l1).2 ≤ j) ∧
      packState options (l1 ++ [image]) =
        (listModify (fun col => { col with
            images := col.images ++ [placeImage (columnWidthOf options) image] })
          (shortestColumnOf (packState options l1).2) (packState options l1).1,
         listModify (fun h => h +
            ((placeImage (columnWidthOf options) image).calculatedHeight + options.gap))
          (shortestColumnOf (packState options l1).2) (packState options l1).2) := by
  have hne : (packState options l1).2 ≠ [] := packState_snd_ne_nil options l1
  rcases get_shortestColumnOf (packState options l1).2 hne with ⟨hlt, hmin⟩
  refine ⟨hlt, ?_, ?_, ?_⟩
  · intro j hj
    rw [hmin]
    exact listMin_le _ _ (List.get_mem _ j hj)
  · intro j hj hjeq
    rw [hmin] at hjeq
    have : (packState options l1).2.get? j = some (listMin (packState options l1).2) := by
      rw [List.get?_eq_get hj, hjeq]
    exact indexOfQ_le_of_get? _ _ j this
  · rw [packState_append_singleton]
    unfold packStep
    rw [if_pos hv]

/-- Witness for C3: the fifth item of the worked example is assigned after the
first four have been processed at `containerWidth = 1200`, `gap = 16`. -/
theorem masonry_shortest_selection_witness :
    ∃ hlt : shortestColumnOf
        (packState { containerWidth := 1200, gap := 16 } [c1img1, c1img2, c1img3, c1img4]).2 <
        (packState { containerWidth := 1200, gap := 16 } [c1img1, c1img2, c1img3, c1img4]).2.length,
      (∀ j (hj : j < (packState { containerWidth := 1200, gap := 16 }
            [c1img1, c1img2, c1img3, c1img4]).2.length),
        (packState { containerWidth := 1200, gap := 16 } [c1img1, c1img2, c1img3, c1img4]).2.get
            ⟨shortestColumnOf (packState { containerWidth := 1200, gap := 16 }
              [c1img1, c1img2, c1img3, c1img4]).2, hlt⟩ ≤
          (packState { containerWidth := 1200, gap := 16 }
            [c1img1, c1img2, c1img3, c1img4]).2.get ⟨j, hj⟩) ∧
      (∀ j (hj : j < (packState { containerWidth := 1200, gap := 16 }
            [c1img1, c1img2, c1img3, c1img4]).2.length),
        (packState { containerWidth := 1200, gap := 16 }
            [c1img1, c1img2, c1img3, c1img4]).2.get ⟨j, hj⟩ =
          (packState { containerWidth := 1200, gap := 16 } [c1img1, c1img2, c1img3, c1img4]).2.get
            ⟨shortestColumnOf (packState { containerWidth := 1200, gap := 16 }
              [c1img1, c1img2, c1img3, c1img4]).2, hlt⟩ →
        shortestColumnOf (packState { containerWidth := 1200, gap := 16 }
          [c1img1, c1img2, c1img3, c1img4]).2 ≤ j) ∧
      packState { containerWidth := 1200, gap := 16 } ([c1img1, c1img2, c1img3, c1img4] ++ [c1img5]) =
        (listModify (fun col => { col with
            images := col.images ++
              [placeImage (columnWidthOf { containerWidth := 1200, gap := 16 }) c1img5] })
          (shortestColumnOf (packState { containerWidth := 1200, gap := 16 }
            [c1img1, c1img2, c1img3, c1img4]).2)
          (packState { containerWidth := 1200, gap := 16 } [c1img1, c1img2, c1img3, c1img4]).1,
         listModify (fun h => h +
            ((placeImage (columnWidthOf { containerWidth := 1200, gap := 16 })
                c1img5).calculatedHeight + ({ containerWidth := 1200, gap := 16 } :
                  UseMasonryColumnsOptions).gap))
          (shortestColumnOf (packState { containerWidth := 1200, gap := 16 }
            [c1img1, c1img2, c1img3, c1img4]).2)
          (packState { containerWidth := 1200, gap := 16 } [c1img1, c1img2, c1img3, c1img4]).2) :=
  masonry_shortest_selection { containerWidth := 1200, gap := 16 }
    [c1img1, c1img2, c1img3, c1img4] c1img5 (by norm_num [validDims, numOrNull, c1img5])

/-- Claim C4: every placed item's `calculatedHeight` equals
`columnWidth * height / width`; the code computes `columnWidth / (width / height)`,
which is the same rational number. -/
theorem masonry_aspect_preserved (images : List ImageWithDimensions)
    (options : UseMasonryColumnsOptions) (col : MasonryColumn) (p : PlacedImage)
    (hcol : col ∈ (useMasonryColumns images options).columns) (hp : p ∈ col.images) :
    p.calculatedHeight = (useMasonryColumns images options).columnWidth *
      numOrNull p.image.height / numOrNull p.image.width := by
  by_cases hd : images.length = 0 ∨ options.containerWidth ≤ 0
  · rw [useMasonryColumns_empty_of images options hd] at hcol
    simp at hcol
  · push_neg at hd
    have hne : images ≠ [] := by
      intro h0
      exact hd.1 (by rw [h0]; rfl)
    have hcw : 0 < options.containerWidth := hd.2
    have hperm := useMasonryColumns_perm images options hne hcw
    have hmem : p ∈ allPlaced (useMasonryColumns images options).columns := by
      unfold allPlaced
      rw [List.mem_flatten]
      exact ⟨col.images, List.mem_map_of_mem _ hcol, hp⟩
    rcases List.mem_map.mp (hperm.mem_iff.mp hmem) with ⟨i, _, hpi⟩
    rw [useMasonryColumns_run images options hne hcw, ← hpi]
    show columnWidthOf options / (numOrNull i.width / numOrNull i.height) =
      columnWidthOf options * numOrNull i.height / numOrNull i.width
    exact div_div_eq_mul_div _ _ _

/-- Witness for C4: the single placed item of a one-item run at
`containerWidth = 1200`, `gap = 16`. -/
theorem masonry_aspect_preserved_witness :
    ({ image := c1img1, calculatedHeight := 216 } : PlacedImage).calculatedHeight =
      (useMasonryColumns [c1img1] { containerWidth := 1200, gap := 16 }).columnWidth *
        numOrNull ({ image := c1img1, calculatedHeight := 216 } : PlacedImage).image.height /
        numOrNull ({ image := c1img1, calculatedHeight := 216 } : PlacedImage).image.width :=
  masonry_aspect_preserved [c1img1] { containerWidth := 1200, gap := 16 }
    { images := [{ image := c1img1, calculatedHeight := 216 }], columnIndex := 0 }
    { image := c1img1, calculatedHeight := 216 }
    (by norm_num [useMasonryColumns, getColumnCount, initColumns, packStep, placeImage,
      validDims, numOrNull, shortestColumnOf, listMin, indexOfQ, listModify,
      List.range_succ, c1img1])
    (by simp)

/-- Claim C8: the engine is total, and whenever the packing loop runs (any
split of a non-degenerate input into a processed part `l1` and a rest `l2`) the
resolved column count is at least 1, the running-height list is never empty (so
`Math.min` is never applied to an empty list), and the shortest-column index is
in bounds for both the height list and the column list. -/
theorem masonry_no_out_of_bounds (images : List ImageWithDimensions)
    (options : UseMasonryColumnsOptions) (hne : images ≠ [])
    (hcw : 0 < options.containerWidth) (l1 l2 : List ImageWithDimensions)
    (hsplit : images = l1 ++ l2) :
    1 ≤ (useMasonryColumns images options).columnCount ∧
    (packState options l1).2 ≠ [] ∧
    shortestColumnOf (packState options l1).2 < (packState options l1).2.length ∧
    shortestColumnOf (packState options l1).2 < (packState options l1).1.length := by
  have hne2 := packState_snd_ne_nil options l1
  have hlt : shortestColumnOf (packState options l1).2 < (packState options l1).2.length :=
    indexOfQ_lt_length _ _ (listMin_mem _ hne2)
  refine ⟨?_, hne2, hlt, ?_⟩
  · rw [useMasonryColumns_run images options hne hcw]
    show 1 ≤ getColumnCount options.containerWidth
    have := two_le_getColumnCount options.containerWidth
    omega
  · rw [packState_snd_length] at hlt
    rw [packState_fst_length]
    exact hlt

/-- Witness for C8 at the one-item input split before its only item. -/
theorem masonry_no_out_of_bounds_witness :
    1 ≤ (useMasonryColumns [c1img1] { containerWidth := 1200, gap := 16 }).columnCount ∧
    (packState { containerWidth := 1200, gap := 16 } []).2 ≠ [] ∧
    shortestColumnOf (packState { containerWidth := 1200, gap := 16 } []).2 <
      (packState { containerWidth := 1200, gap := 16 } []).2.length ∧
    shortestColumnOf (packState { containerWidth := 1200, gap := 16 } []).2 <
      (packState { containerWidth := 1200, gap := 16 } []).1.length :=
  masonry_no_out_of_bounds [c1img1] { containerWidth := 1200, gap := 16 }
    (by simp) (by norm_num) [] [c1img1] rfl

/-- Claim C10: for a positive container width no larger than the total gap
width `(columnCount - 1) * gap`, the engine still reports the full breakpoint
column count, a zero-or-negative column width, still places every valid item,
and every placed item's calculated height is zero or negative — no clamping. -/
theorem masonry_small_width_no_clamp (images : List ImageWithDimensions)
    (options : UseMasonryColumnsOptions) (hne : images ≠ [])
    (hcw : 0 < options.containerWidth)
    (hsmall : options.containerWidth ≤
      ((getColumnCount options.containerWidth : ℚ) - 1) * options.gap) :
    (useMasonryColumns images options).columnCount = getColumnCount options.containerWidth ∧
    (useMasonryColumns images options).columnWidth ≤ 0 ∧
    (allPlaced (useMasonryColumns images options).columns).length =
      (images.filter validDims).length ∧
    ∀ p ∈ allPlaced (useMasonryColumns images options).columns, p.calculatedHeight ≤ 0 := by
  have hperm := useMasonryColumns_perm images options hne hcw
  have hW : columnWidthOf options ≤ 0 := by
    unfold columnWidthOf
    apply div_nonpos_iff.mpr
    right
    constructor
    · linarith
    · positivity
  refine ⟨?_, ?_, ?_, ?_⟩
  · rw [useMasonryColumns_run images options hne hcw]
  · rw [useMasonryColumns_run images options hne hcw]
    exact hW
  · rw [hperm.length_eq, List.length_map]
  · intro p hp
    rcases List.mem_map.mp (hperm.mem_iff.mp hp) with ⟨i, hi, hpi⟩
    have hvi : validDims i = true := (List.mem_filter.mp hi).2
    have hw : 0 < numOrNull i.width := by
      have hv := hvi
      unfold validDims at hv
      rw [Bool.and_eq_true] at hv
      exact of_decide_eq_true hv.1
    have hh : 0 < numOrNull i.height := by
      have hv := hvi
      unfold validDims at hv
      rw [Bool.and_eq_true] at hv
      exact of_decide_eq_true hv.2
    rw [← hpi]
    show columnWidthOf options / (numOrNull i.width / numOrNull i.height) ≤ 0
    apply div_nonpos_iff.mpr
    right
    exact ⟨hW, le_of_lt (div_pos hw hh)⟩

/-- Witness for C10: `containerWidth = 10`, `gap = 16` resolves to 2 columns
with `(2 - 1) * 16 = 16 ≥ 10`, and the single valid item is still placed at a
negative height. -/
theorem masonry_small_width_no_clamp_witness :
    (useMasonryColumns [c1img1] { containerWidth := 10, gap := 16 }).columnCount =
      getColumnCount ({ containerWidth := 10, gap := 16 } :
        UseMasonryColumnsOptions).containerWidth ∧
    (useMasonryColumns [c1img1] { containerWidth := 10, gap := 16 }).columnWidth ≤ 0 ∧
    (allPlaced (useMasonryColumns [c1img1] { containerWidth := 10, gap := 16 }).columns).length =
      ([c1img1].filter validDims).length ∧
    ∀ p ∈ allPlaced (useMasonryColumns [c1img1] { containerWidth := 10, gap := 16 }).columns,
      p.calculatedHeight ≤ 0 :=
  masonry_small_width_no_clamp [c1img1] { containerWidth := 10, gap := 16 }
    (by simp) (by norm_num) (by norm_num [getColumnCount])
